import Mathlib

/-!
Verification development for the `tagmap` library (src/lib.rs): a tagged
value store addressing scalar and sequence entries through textual tags
with an optional bracketed index range.  Rust strings are modelled as
`List Char`, `usize` as `Nat` (with the 64-bit bound enforced where the
source parses integers), `BTreeMap` as an association list with
unique-key update semantics, and fallible functions return `Except`.
A `Option`-wrapped result models a possible panic (`none` = panic).
-/

/-! ## Characters and decimal numerals -/

/-- Character constant, the code of the plus sign. -/
def plusChar : Char := Char.ofNat 43

/-- Character constant, the code of the dash. -/
def dashChar : Char := Char.ofNat 45

/-- Character constant, the code of the opening square bracket. -/
def lbrackChar : Char := Char.ofNat 91

/-- Character constant, the code of the closing square bracket. -/
def rbrackChar : Char := Char.ofNat 93

/-- Decimal digit to its character, as produced by Rust integer `Display`. -/
def digitChar (d : Nat) : Char := Char.ofNat (48 + d)

/-- Numeric value of a digit character. -/
def charVal (c : Char) : Nat := c.toNat - 48

/-- Whether a character is an ASCII decimal digit. -/
def isDigitChar (c : Char) : Bool := decide (48 ≤ c.toNat) && decide (c.toNat ≤ 57)

/-- Decimal numeral of a natural number, fueled so that the kernel can
evaluate it (the fuel argument strictly dominates the value). -/
def natToCharsAux : Nat → Nat → List Char
  | 0, _ => []
  | fuel + 1, n =>
    if n < 10 then [digitChar n]
    else natToCharsAux fuel (n / 10) ++ [digitChar (n % 10)]

/-- Decimal numeral of a natural number, as Rust `Display` for `usize` prints it. -/
def natToChars (n : Nat) : List Char := natToCharsAux (n + 1) n

/-- Value of a digit string read left to right. -/
def digitsVal (l : List Char) : Nat := l.foldl (fun a c => a * 10 + charVal c) 0

/-- Size bound of `usize` on the 64-bit targets the crate is built for. -/
def usizeBound : Nat := 2 ^ 64

/-- Digits-only part of Rust `usize::from_str`: a non-empty all-digit
string whose value fits in `usize` (Rust reports overflow as an error). -/
def parseUsizeCore (l : List Char) : Option Nat :=
  if l = [] then none
  else if l.all isDigitChar then
    if digitsVal l < usizeBound then some (digitsVal l) else none
  else none

/-- Rust `usize::from_str`: an optional leading plus sign, then digits. -/
def parseUsize (l : List Char) : Option Nat :=
  match l with
  | [] => none
  | c :: rest => if c = plusChar then parseUsizeCore rest else parseUsizeCore (c :: rest)

/-! ## String utilities mirroring `str` methods used by the source -/

/-- Rust `str::strip_suffix` for a single-character pattern. -/
def stripSuffixChar (l : List Char) (c : Char) : Option (List Char) :=
  if l.getLast? = some c then some l.dropLast else none

/-- Rust `str::find` for a single-character pattern: index of the first occurrence. -/
def findChar : List Char → Char → Option Nat
  | [], _ => none
  | a :: rest, c => if a = c then some 0 else (findChar rest c).map (· + 1)

/-- Rust `str::rfind` for a single-character pattern: index of the last occurrence. -/
def rfindChar : List Char → Char → Option Nat
  | [], _ => none
  | a :: rest, c =>
    match rfindChar rest c with
    | some i => some (i + 1)
    | none => if a = c then some 0 else none

/-! ## Data model (src/lib.rs) -/

/-- Discriminated tag identifier (src/lib.rs `enum TagId`).  The optional
GUID variant mentioned by the spec is absent from this source. -/
inductive TagId where
  | str (s : List Char) : TagId
  | num (n : Nat) : TagId
deriving DecidableEq

/-- Optional inclusive index range (src/lib.rs `struct Range`).  The source
field names are `from` and `to`; both are Lean keywords, so the fields
are named `fromB` and `toB` here. -/
structure Range where
  fromB : Option Nat
  toB : Option Nat
deriving DecidableEq

/-- Identifier plus range (src/lib.rs `struct Tag`). -/
structure Tag where
  id : TagId
  range : Range
deriving DecidableEq

/-- Error messages appearing in the source, one constructor per message
string: `invalidArray` = "invalid array", `invalidSeqIndex` =
"invalid seq index", `parseIntError` = the message of an integer parse
failure, `noSuchTag` = "no such tag", `tagIsNotSeq` = "tag is not a seq",
`tagIsNotAnArray` = "tag is not an array", `invalidValueSeqLen` =
"invalid value seq len", `valueIsNotSeq` = "value is not a seq",
`canNotDeleteRange` = "can not delete range". -/
inductive ErrMsg where
  | invalidArray : ErrMsg
  | invalidSeqIndex : ErrMsg
  | parseIntError : ErrMsg
  | noSuchTag : ErrMsg
  | tagIsNotSeq : ErrMsg
  | tagIsNotAnArray : ErrMsg
  | invalidValueSeqLen : ErrMsg
  | valueIsNotSeq : ErrMsg
  | canNotDeleteRange : ErrMsg
deriving DecidableEq

/-- Modelled from the spec: the external error taxonomy (`eva_common`
`Error`), reduced to the three kinds the spec names, each carrying its
message.  The conversion of an integer parse failure through the
question-mark operator yields the `invalidParams` kind per the spec. -/
inductive Err where
  | invalidParams (msg : ErrMsg) : Err
  | invalidData (msg : ErrMsg) : Err
  | notFound (msg : ErrMsg) : Err
deriving DecidableEq

/-- Modelled from the spec: the external structured value (`eva_common`
`Value`), whose observable shape here is the absent/unit placeholder, an
ordered sequence of values, or an opaque scalar that is only copied and
compared (represented by one integer constructor). -/
inductive Value where
  | unit : Value
  | seq (elems : List Value) : Value
  | int (i : Int) : Value

/-- Source `Tag::has_range`. -/
def Tag.has_range (t : Tag) : Bool := t.range.fromB.isSome || t.range.toB.isSome

/-- Source `Tag::range_len`: defined only when `to` is present, as
`to - from.unwrap_or(0) + 1` (the source relies on the parser invariant
`from ≤ to`; subtraction here is truncated `Nat` subtraction). -/
def Tag.range_len (t : Tag) : Option Nat :=
  t.range.toB.map (fun b => b - t.range.fromB.getD 0 + 1)

/-- Parser invariant on a range (spec section 3): when both bounds are
present, `from ≤ to`. -/
def Range.wf (r : Range) : Bool :=
  match r.fromB, r.toB with
  | some f, some b => decide (f ≤ b)
  | _, _ => true

/-! ## Display (src/lib.rs `impl fmt::Display`) -/

/-- Source `impl fmt::Display for TagId`: the bare contained value. -/
def TagId.display : TagId → List Char
  | .str s => s
  | .num n => natToChars n

/-- Source `impl fmt::Display for Tag`: the identifier, then, when a
bound is present, the bracketed interior: the single index when the
range length is defined and equals one, otherwise the dash form. -/
def Tag.display (t : Tag) : List Char :=
  t.id.display ++
    (if t.has_range then
      lbrackChar ::
        ((if t.range_len = some 1 then natToChars (t.range.fromB.getD 0)
          else
            (match t.range.fromB with | some f => natToChars f | none => []) ++
              dashChar :: (match t.range.toB with | some b => natToChars b | none => []))
          ++ [rbrackChar])
    else [])

/-! ## Parsing (src/lib.rs `parse_range`, `impl FromStr for Tag`) -/

/-- Source `parse_range`: split the interior at the first dash when one is
present, parse each non-empty side, reject `from > to`; with no dash the
whole interior is a single index `n` giving the range `n..n`. -/
def parse_range (s : List Char) : Except Err Range :=
  match findChar s dashChar with
  | some pos =>
    let f := s.take pos
    let t := s.drop (pos + 1)
    match (if f = [] then Except.ok none
           else match parseUsize f with
                | some n => Except.ok (some n)
                | none => Except.error (Err.invalidParams ErrMsg.parseIntError) :
             Except Err (Option Nat)) with
    | Except.error e => Except.error e
    | Except.ok fromv =>
      match (if t = [] then Except.ok none
             else match parseUsize t with
                  | some n => Except.ok (some n)
                  | none => Except.error (Err.invalidParams ErrMsg.parseIntError) :
               Except Err (Option Nat)) with
      | Except.error e => Except.error e
      | Except.ok tov =>
        match fromv, tov with
        | some fv, some tv =>
          if fv > tv then Except.error (Err.invalidParams ErrMsg.invalidSeqIndex)
          else Except.ok ⟨some fv, some tv⟩
        | _, _ => Except.ok ⟨fromv, tov⟩
  | none =>
    match parseUsize s with
    | some n => Except.ok ⟨some n, some n⟩
    | none => Except.error (Err.invalidParams ErrMsg.parseIntError)

/-- Source `impl FromStr for Tag`: strip a trailing closing bracket, look
for the last opening bracket, parse the interior as a range; with no
trailing bracket the whole text is a bare string identifier. -/
def Tag.from_str (s : List Char) : Except Err Tag :=
  match stripSuffixChar s rbrackChar with
  | some x =>
    match rfindChar x lbrackChar with
    | some pos =>
      match parse_range (x.drop (pos + 1)) with
      | Except.ok range => Except.ok ⟨TagId.str (x.take pos), range⟩
      | Except.error e => Except.error e
    | none => Except.error (Err.invalidParams ErrMsg.invalidArray)
  | none => Except.ok ⟨TagId.str s, ⟨none, none⟩⟩

/-! ## The map (src/lib.rs `struct TagMap`) -/

/-- Source `BTreeMap<TagId, Value>` modelled as an association list; the
operations below give first-occurrence semantics, which on the
unique-key lists a `BTreeMap` produces agree with the tree map. -/
abbrev TagMap := List (TagId × Value)

/-- Lookup, as `BTreeMap::get` / `BTreeMap::get_mut` address an entry. -/
def mapFind : TagMap → TagId → Option Value
  | [], _ => none
  | p :: rest, k => if p.1 = k then some p.2 else mapFind rest k

/-- Insert or overwrite in place, as `BTreeMap::insert` and as mutation
through `get_mut` leave the keyed entry at its position. -/
def mapInsert : TagMap → TagId → Value → TagMap
  | [], k, v => [(k, v)]
  | p :: rest, k, v => if p.1 = k then (k, v) :: rest else p :: mapInsert rest k v

/-- Remove the keyed entry, as `BTreeMap::remove`. -/
def mapRemove : TagMap → TagId → TagMap
  | [], _ => []
  | p :: rest, k => if p.1 = k then rest else p :: mapRemove rest k

/-- Rust `Vec::resize(n, Value::Unit)`: truncate to `n` or pad with the
placeholder up to `n`. -/
def resize (l : List Value) (n : Nat) : List Value :=
  if n ≤ l.length then l.take n
  else l ++ List.replicate (n - l.length) Value.unit

/-- Source `TagMap::delete`: refuse any range, otherwise remove the entry
(absence is not an error). -/
def TagMap.delete (m : TagMap) (tag : Tag) : Except Err Unit × TagMap :=
  if tag.has_range then (Except.error (Err.invalidParams ErrMsg.canNotDeleteRange), m)
  else (Except.ok (), mapRemove m tag.id)

/-- Exclusive upper bound of a ranged read, as `TagMap::get` computes it:
`to + 1` when `to` is present, else the current length of the stored
sequence. -/
def toExclOf (t : Tag) (sq : List Value) : Nat :=
  match t.range.toB with | some v => v + 1 | none => sq.length

/-- Source `TagMap::get`.  The first component is the call's result,
wrapped in `Option`: `none` models the panic of
`Vec::with_capacity(to - from + 1)` when the `usize` subtraction
`to - from` underflows; the second component is the map after the call
(the source takes `&mut self` but never writes). -/
def TagMap.get (m : TagMap) (tag : Tag) : Option (Except Err Value) × TagMap :=
  (match mapFind m tag.id with
   | some val =>
     if tag.has_range then
       match val with
       | Value.seq sq =>
         if tag.range_len = some 1 then
           some (Except.ok ((sq.getD (tag.range.fromB.getD 0) Value.unit)))
         else
           let fro := tag.range.fromB.getD 0
           let toExcl := toExclOf tag sq
           if toExcl < fro then none
           else
             some (Except.ok (Value.seq
               ((List.range' fro (toExcl - fro)).map (fun i => sq.getD i Value.unit))))
       | _ => some (Except.error (Err.invalidData ErrMsg.tagIsNotSeq))
     else some (Except.ok val)
   | none => some (Except.error (Err.notFound ErrMsg.noSuchTag)), m)

/-- Source `TagMap::set`.  The branches follow the source exactly: with no
range, unconditional insert; with a range and an existing sequence entry,
single-index write (with grow-only padding), bounded splice through
`split_off(to + 1)`, or open-ended suffix replacement; with a range and
no entry, a fresh padded sequence.  Every failure returns the map
untouched. -/
def TagMap.set (m : TagMap) (tag : Tag) (value : Value) : Except Err Unit × TagMap :=
  if tag.has_range then
    match mapFind m tag.id with
    | some val =>
      match val with
      | Value.seq sq =>
        match tag.range_len with
        | some len =>
          if len = 1 then
            let idx := tag.range.fromB.getD 0
            let sq2 := if sq.length < idx + 1 then resize sq (idx + 1) else sq
            (Except.ok (), mapInsert m tag.id (Value.seq (sq2.set idx value)))
          else
            match value with
            | Value.seq s =>
              if s.length ≠ len then
                (Except.error (Err.invalidParams ErrMsg.invalidValueSeqLen), m)
              else
                let lastIdx := tag.range.toB.getD 0 + 1
                let tail := if lastIdx > sq.length then none else some (sq.drop lastIdx)
                let sq2 := if lastIdx > sq.length then sq else sq.take lastIdx
                let firstIdx := tag.range.fromB.getD 0
                let sq3 := resize sq2 firstIdx ++ s
                (Except.ok (), mapInsert m tag.id (Value.seq
                  (match tail with | some tl => sq3 ++ tl | none => sq3)))
            | _ => (Except.error (Err.invalidParams ErrMsg.valueIsNotSeq), m)
        | none =>
          match value with
          | Value.seq s =>
            let idx := tag.range.fromB.getD 0
            (Except.ok (), mapInsert m tag.id (Value.seq (resize sq idx ++ s)))
          | _ => (Except.error (Err.invalidParams ErrMsg.valueIsNotSeq), m)
      | _ => (Except.error (Err.invalidParams ErrMsg.tagIsNotAnArray), m)
    | none =>
      match value with
      | Value.seq sq =>
        match tag.range_len with
        | some len =>
          if len ≠ sq.length then
            (Except.error (Err.invalidParams ErrMsg.invalidValueSeqLen), m)
          else
            (Except.ok (), mapInsert m tag.id (Value.seq
              (List.replicate (tag.range.fromB.getD 0) Value.unit ++ sq)))
        | none =>
          (Except.ok (), mapInsert m tag.id (Value.seq
            (List.replicate (tag.range.fromB.getD 0) Value.unit ++ sq)))
      | _ =>
        match tag.range_len with
        | some len =>
          if len = 1 then
            let idx := tag.range.fromB.getD 0
            (Except.ok (), mapInsert m tag.id (Value.seq
              ((List.replicate (idx + 1) Value.unit).set idx value)))
          else (Except.error (Err.invalidParams ErrMsg.valueIsNotSeq), m)
        | none => (Except.error (Err.invalidParams ErrMsg.valueIsNotSeq), m)
  else (Except.ok (), mapInsert m tag.id value)

/-! ## Helper lemmas about the map and sequence operations -/

theorem mapFind_mapInsert_self (m : TagMap) (k : TagId) (v : Value) :
    mapFind (mapInsert m k v) k = some v := by
  induction m with
  | nil => simp [mapInsert, mapFind]
  | cons p rest ih =>
    by_cases h : p.1 = k <;> simp [mapInsert, mapFind, h, ih]

theorem mapInsert_eq_self_of_find (m : TagMap) (k : TagId) (v : Value)
    (h : mapFind m k = some v) : mapInsert m k v = m := by
  induction m with
  | nil => simp [mapFind] at h
  | cons p rest ih =>
    obtain ⟨a, b⟩ := p
    by_cases hpk : a = k
    · simp [mapFind, hpk] at h
      simp [mapInsert, hpk, h]
    · simp [mapFind, hpk] at h
      simp [mapInsert, hpk, ih h]

theorem mapInsert_mapInsert (m : TagMap) (k : TagId) (v w : Value) :
    mapInsert (mapInsert m k v) k w = mapInsert m k w := by
  induction m with
  | nil => simp [mapInsert]
  | cons p rest ih =>
    by_cases h : p.1 = k <;> simp [mapInsert, h, ih]

theorem mapFind_eq_none_of_not_mem (m : TagMap) (k : TagId)
    (h : k ∉ m.map Prod.fst) : mapFind m k = none := by
  induction m with
  | nil => rfl
  | cons p rest ih =>
    rw [List.map_cons] at h
    simp only [List.mem_cons, not_or] at h
    have h1 : ¬p.1 = k := fun hh => h.1 hh.symm
    simp only [mapFind, h1, if_false]
    exact ih h.2

theorem mapFind_mapRemove_self (m : TagMap) (k : TagId)
    (h : (m.map Prod.fst).Nodup) : mapFind (mapRemove m k) k = none := by
  induction m with
  | nil => rfl
  | cons p rest ih =>
    simp at h
    by_cases hpk : p.1 = k
    · simpa [mapRemove, hpk] using
        mapFind_eq_none_of_not_mem rest k (by simpa [hpk] using h.1)
    · simp [mapRemove, hpk, mapFind, ih h.2]

theorem resize_length (l : List Value) (n : Nat) : (resize l n).length = n := by
  unfold resize
  split <;> simp <;> omega

theorem resize_eq_take_of_le (l : List Value) (n : Nat) (h : n ≤ l.length) :
    resize l n = l.take n := by
  simp [resize, h]

theorem resize_take (l : List Value) (n : Nat) : resize (l.take n) n = resize l n := by
  rcases le_or_lt n l.length with h | h
  · rw [resize_eq_take_of_le _ _ (by simpa using h), resize_eq_take_of_le _ _ h]
    simp
  · have : l.take n = l := List.take_of_length_le (Nat.le_of_lt h)
    rw [this]

theorem replicate_set (n : Nat) (v : Value) :
    (List.replicate (n + 1) Value.unit).set n v = List.replicate n Value.unit ++ [v] := by
  induction n with
  | zero => rfl
  | succ k ih =>
    rw [List.replicate_succ] at ih ⊢
    rw [List.replicate_succ]
    simpa using ih

theorem set_ok_or_unchanged (m : TagMap) (t : Tag) (v : Value) :
    (TagMap.set m t v).1 = Except.ok () ∨ (TagMap.set m t v).2 = m := by
  unfold TagMap.set
  repeat' split
  all_goals simp

/-! ## Claim theorems -/

/-- C10: for every map state and every tag, a call to `TagMap.get`
(succeeding, failing, or panicking) leaves the map exactly unchanged,
even though the source function takes mutable access to the map. -/
theorem get_leaves_map_unchanged (m : TagMap) (t : Tag) : (TagMap.get m t).2 = m := rfl

/-- C4: whenever `TagMap.set` returns an error, the map is exactly as it
was before the call: no failure path performs any mutation. -/
theorem set_error_leaves_map_unchanged (m : TagMap) (t : Tag) (v : Value) (e : Err)
    (h : (TagMap.set m t v).1 = Except.error e) : (TagMap.set m t v).2 = m := by
  rcases set_ok_or_unchanged m t v with h1 | h1
  · rw [h] at h1
    cases h1
  · exact h1

/-- Witness for C4: on an empty map, a multi-index set with a scalar value
fails and the map stays empty. -/
theorem set_error_leaves_map_unchanged_witness :
    (TagMap.set [] ⟨TagId.str [Char.ofNat 120], ⟨some 0, some 1⟩⟩ (Value.int 5)).2 = [] :=
  set_error_leaves_map_unchanged [] ⟨TagId.str [Char.ofNat 120], ⟨some 0, some 1⟩⟩
    (Value.int 5) (Err.invalidParams ErrMsg.valueIsNotSeq) rfl

/-- C9: deleting a tag that carries any range bound fails with
`InvalidParams` and leaves the map unchanged; deleting a rangeless tag
removes its entry (lookup afterwards finds nothing, on a unique-key map)
and succeeds even when the entry is absent, so a second delete of the
same rangeless tag also succeeds. -/
theorem delete_spec (m : TagMap) (t : Tag) :
    (t.has_range = true →
      TagMap.delete m t = (Except.error (Err.invalidParams ErrMsg.canNotDeleteRange), m))
    ∧ (t.has_range = false →
      TagMap.delete m t = (Except.ok (), mapRemove m t.id)
      ∧ ((m.map Prod.fst).Nodup → mapFind (mapRemove m t.id) t.id = none)
      ∧ (TagMap.delete (TagMap.delete m t).2 t).1 = Except.ok ()) := by
  constructor
  · intro hr
    simp [TagMap.delete, hr]
  · intro hr
    refine ⟨by simp [TagMap.delete, hr], fun hn => mapFind_mapRemove_self m t.id hn, ?_⟩
    simp [TagMap.delete, hr]

/-- Witness for C9: deleting a ranged tag from a one-entry map fails and
keeps the map; deleting a rangeless tag from that map empties it, and a
second delete still succeeds. -/
theorem delete_spec_witness :
    TagMap.delete [(TagId.str [Char.ofNat 120], Value.int 5)]
        ⟨TagId.str [Char.ofNat 120], ⟨some 1, some 1⟩⟩
      = (Except.error (Err.invalidParams ErrMsg.canNotDeleteRange),
         [(TagId.str [Char.ofNat 120], Value.int 5)])
    ∧ TagMap.delete [(TagId.str [Char.ofNat 120], Value.int 5)]
        ⟨TagId.str [Char.ofNat 120], ⟨none, none⟩⟩
      = (Except.ok (), [])
    ∧ (TagMap.delete [] ⟨TagId.str [Char.ofNat 120], ⟨none, none⟩⟩).1 = Except.ok () := by
  refine ⟨(delete_spec _ _).1 rfl, ?_, ?_⟩
  · have h := ((delete_spec [(TagId.str [Char.ofNat 120], Value.int 5)]
      ⟨TagId.str [Char.ofNat 120], ⟨none, none⟩⟩).2 rfl).1
    simpa [mapRemove] using h
  · exact ((delete_spec [] ⟨TagId.str [Char.ofNat 120], ⟨none, none⟩⟩).2 rfl).2.2

theorem resize_take_le (l : List Value) (mm n : Nat) (h : n ≤ mm) :
    resize (l.take mm) n = resize l n := by
  rcases le_or_lt n l.length with hl | hl
  · rw [resize_eq_take_of_le _ _ hl, resize_eq_take_of_le, List.take_take,
      Nat.min_eq_left h]
    simp
    omega
  · have hml : l.length ≤ mm := by omega
    rw [List.take_of_length_le hml]

/-- C7: on an entry holding a sequence, a get through a tag whose range
length is defined and equals one returns the element at index `from`
(defaulting to zero) when in bounds and the unit placeholder when out of
bounds, never an out-of-bounds error. -/
theorem get_single_index (m : TagMap) (t : Tag) (sq : List Value)
    (hfind : mapFind m t.id = some (Value.seq sq))
    (hlen : t.range_len = some 1) :
    TagMap.get m t = (some (Except.ok (sq.getD (t.range.fromB.getD 0) Value.unit)), m)
    ∧ (sq.length ≤ t.range.fromB.getD 0 →
        sq.getD (t.range.fromB.getD 0) Value.unit = Value.unit) := by
  have hr : t.has_range = true := by
    rcases hb : t.range.toB with _ | b
    · unfold Tag.range_len at hlen
      rw [hb] at hlen
      cases hlen
    · simp [Tag.has_range, hb]
  constructor
  · simp [TagMap.get, hfind, hr, hlen]
  · intro h
    exact List.getD_eq_default _ _ h

/-- Witness for C7: the single-index reads of a three-element sequence at
an in-bounds index and at an out-of-bounds index. -/
theorem get_single_index_witness :
    TagMap.get [(TagId.str [Char.ofNat 120], Value.seq [Value.int 1, Value.int 2, Value.int 3])]
        ⟨TagId.str [Char.ofNat 120], ⟨some 1, some 1⟩⟩
      = (some (Except.ok (Value.int 2)),
         [(TagId.str [Char.ofNat 120], Value.seq [Value.int 1, Value.int 2, Value.int 3])])
    ∧ TagMap.get [(TagId.str [Char.ofNat 120], Value.seq [Value.int 1, Value.int 2, Value.int 3])]
        ⟨TagId.str [Char.ofNat 120], ⟨some 7, some 7⟩⟩
      = (some (Except.ok Value.unit),
         [(TagId.str [Char.ofNat 120], Value.seq [Value.int 1, Value.int 2, Value.int 3])]) := by
  constructor
  · exact (get_single_index
      [(TagId.str [Char.ofNat 120], Value.seq [Value.int 1, Value.int 2, Value.int 3])]
      ⟨TagId.str [Char.ofNat 120], ⟨some 1, some 1⟩⟩
      [Value.int 1, Value.int 2, Value.int 3] rfl rfl).1
  · exact (get_single_index
      [(TagId.str [Char.ofNat 120], Value.seq [Value.int 1, Value.int 2, Value.int 3])]
      ⟨TagId.str [Char.ofNat 120], ⟨some 7, some 7⟩⟩
      [Value.int 1, Value.int 2, Value.int 3] rfl rfl).1

/-- C6: with no existing entry and a non-sequence value, a ranged set
succeeds exactly when the range length is one, inserting a fresh
sequence of `from` placeholders followed by the value; with any other
range it fails with `InvalidParams` and leaves the map unchanged. -/
theorem set_scalar_fresh_entry (m : TagMap) (t : Tag) (v : Value)
    (hfind : mapFind m t.id = none)
    (hr : t.has_range = true)
    (hv : ∀ s, v ≠ Value.seq s) :
    (t.range_len = some 1 →
      TagMap.set m t v = (Except.ok (), mapInsert m t.id
        (Value.seq (List.replicate (t.range.fromB.getD 0) Value.unit ++ [v]))))
    ∧ (t.range_len ≠ some 1 →
      (TagMap.set m t v).1 = Except.error (Err.invalidParams ErrMsg.valueIsNotSeq)
      ∧ (TagMap.set m t v).2 = m) := by
  constructor
  · intro hlen
    cases v with
    | seq s => exact absurd rfl (hv s)
    | unit => simp [TagMap.set, hr, hfind, hlen, replicate_set, List.replicate_succ']
    | int i => simp [TagMap.set, hr, hfind, hlen, replicate_set, List.replicate_succ']
  · intro hlen
    rcases hl : t.range_len with _ | len
    · cases v with
      | seq s => exact absurd rfl (hv s)
      | unit => simp [TagMap.set, hr, hfind, hl]
      | int i => simp [TagMap.set, hr, hfind, hl]
    · have hne : len ≠ 1 := by
        rintro rfl
        exact hlen hl
      cases v with
      | seq s => exact absurd rfl (hv s)
      | unit => simp [TagMap.set, hr, hfind, hl, hne]
      | int i => simp [TagMap.set, hr, hfind, hl, hne]

/-- Witness for C6: on an empty map, setting tag `x[2]` to the scalar 5
stores `x` as the sequence unit, unit, 5; setting tag `x[0-1]` to a
scalar fails with `InvalidParams` and keeps the map empty. -/
theorem set_scalar_fresh_entry_witness :
    TagMap.set [] ⟨TagId.str [Char.ofNat 120], ⟨some 2, some 2⟩⟩ (Value.int 5)
      = (Except.ok (),
         [(TagId.str [Char.ofNat 120], Value.seq [Value.unit, Value.unit, Value.int 5])])
    ∧ (TagMap.set [] ⟨TagId.str [Char.ofNat 120], ⟨some 0, some 1⟩⟩ (Value.int 5)).1
      = Except.error (Err.invalidParams ErrMsg.valueIsNotSeq) := by
  constructor
  · exact (set_scalar_fresh_entry [] ⟨TagId.str [Char.ofNat 120], ⟨some 2, some 2⟩⟩
      (Value.int 5) rfl rfl (fun s h => Value.noConfusion h)).1 rfl
  · exact ((set_scalar_fresh_entry [] ⟨TagId.str [Char.ofNat 120], ⟨some 0, some 1⟩⟩
      (Value.int 5) rfl rfl (fun s h => Value.noConfusion h)).2 (by simp [Tag.range_len])).1

/-- C3 (amended): on an entry holding a sequence, a get through a tag with
a multi-element or open-ended range returns a new sequence of length
`to_excl - from` whose positions hold the source element when in bounds
and the placeholder otherwise — provided `from ≤ to_excl`; the
out-of-scope case (`to` absent and `from` beyond the stored length) makes
the source panic instead. -/
theorem get_window (m : TagMap) (t : Tag) (sq : List Value)
    (hfind : mapFind m t.id = some (Value.seq sq))
    (hr : t.has_range = true)
    (hne1 : t.range_len ≠ some 1)
    (hle : t.range.fromB.getD 0 ≤ toExclOf t sq) :
    TagMap.get m t = (some (Except.ok (Value.seq
      ((List.range' (t.range.fromB.getD 0) (toExclOf t sq - t.range.fromB.getD 0)).map
        (fun i => sq.getD i Value.unit)))), m)
    ∧ ((List.range' (t.range.fromB.getD 0) (toExclOf t sq - t.range.fromB.getD 0)).map
        (fun i => sq.getD i Value.unit)).length
      = toExclOf t sq - t.range.fromB.getD 0 := by
  have hnl : ¬(toExclOf t sq < t.range.fromB.getD 0) := not_lt.mpr hle
  constructor
  · simp [TagMap.get, hfind, hr, hne1, hnl]
  · simp

/-- Witness for C3 (amended): reading `x[1-2]` from `x` holding the
sequence 1, 2, 3 returns the window 2, 3, and reading `x[1-5]` pads the
out-of-bounds tail with placeholders. -/
theorem get_window_witness :
    TagMap.get [(TagId.str [Char.ofNat 120], Value.seq [Value.int 1, Value.int 2, Value.int 3])]
        ⟨TagId.str [Char.ofNat 120], ⟨some 1, some 2⟩⟩
      = (some (Except.ok (Value.seq [Value.int 2, Value.int 3])),
         [(TagId.str [Char.ofNat 120], Value.seq [Value.int 1, Value.int 2, Value.int 3])])
    ∧ TagMap.get [(TagId.str [Char.ofNat 120], Value.seq [Value.int 1, Value.int 2, Value.int 3])]
        ⟨TagId.str [Char.ofNat 120], ⟨some 1, some 5⟩⟩
      = (some (Except.ok (Value.seq
          [Value.int 2, Value.int 3, Value.unit, Value.unit, Value.unit])),
         [(TagId.str [Char.ofNat 120], Value.seq [Value.int 1, Value.int 2, Value.int 3])]) := by
  constructor
  · exact (get_window
      [(TagId.str [Char.ofNat 120], Value.seq [Value.int 1, Value.int 2, Value.int 3])]
      ⟨TagId.str [Char.ofNat 120], ⟨some 1, some 2⟩⟩
      [Value.int 1, Value.int 2, Value.int 3] rfl rfl (by decide) (by decide)).1
  · exact (get_window
      [(TagId.str [Char.ofNat 120], Value.seq [Value.int 1, Value.int 2, Value.int 3])]
      ⟨TagId.str [Char.ofNat 120], ⟨some 1, some 5⟩⟩
      [Value.int 1, Value.int 2, Value.int 3] rfl rfl (by decide) (by decide)).1

/-- Counterexample for C3 as stated: with `x` holding a three-element
sequence, the open-ended read `x[5-]` does not succeed — the capacity
computation `to - from + 1` underflows and the call panics (modelled as
`none`), so no value is returned. -/
theorem get_window_counterexample :
    (TagMap.get [(TagId.str [Char.ofNat 120],
        Value.seq [Value.int 1, Value.int 2, Value.int 3])]
      ⟨TagId.str [Char.ofNat 120], ⟨some 5, none⟩⟩).1 = none
    ∧ ¬∃ v, (TagMap.get [(TagId.str [Char.ofNat 120],
        Value.seq [Value.int 1, Value.int 2, Value.int 3])]
      ⟨TagId.str [Char.ofNat 120], ⟨some 5, none⟩⟩).1 = some (Except.ok v) := by
  have h1 : (TagMap.get [(TagId.str [Char.ofNat 120],
      Value.seq [Value.int 1, Value.int 2, Value.int 3])]
    ⟨TagId.str [Char.ofNat 120], ⟨some 5, none⟩⟩).1 = none := rfl
  refine ⟨h1, ?_⟩
  rintro ⟨v, hv⟩
  rw [h1] at hv
  cases hv

theorem splice_eq (m : TagMap) (id : TagId) (sq s : List Value) (fro : Option Nat) (b : Nat)
    (hfind : mapFind m id = some (Value.seq sq))
    (hlt : fro.getD 0 < b)
    (hs : s.length = b - fro.getD 0 + 1) :
    TagMap.set m ⟨id, ⟨fro, some b⟩⟩ (Value.seq s)
      = (Except.ok (), mapInsert m id
          (Value.seq (resize sq (fro.getD 0) ++ s ++ sq.drop (b + 1)))) := by
  have hr : Tag.has_range ⟨id, ⟨fro, some b⟩⟩ = true := by simp [Tag.has_range]
  have hlen : Tag.range_len ⟨id, ⟨fro, some b⟩⟩ = some (b - fro.getD 0 + 1) := by
    simp [Tag.range_len]
  have hne1 : b - fro.getD 0 + 1 ≠ 1 := by omega
  by_cases hc : b + 1 > sq.length
  · have hdrop : sq.drop (b + 1) = [] := List.drop_eq_nil_of_le (by omega)
    simp [TagMap.set, hr, hfind, hlen, hne1, hs, hc, hdrop]
  · have htk : resize (sq.take (b + 1)) (fro.getD 0) = resize sq (fro.getD 0) :=
      resize_take_le sq (b + 1) (fro.getD 0) (by omega)
    simp [TagMap.set, hr, hfind, hlen, hne1, hs, hc, htk]

/-- C2: on an entry holding a sequence, a set through a bounded range of
length greater than one with a matching-length sequence value splices
exactly the window: the head before `from` is preserved (padded with
placeholders when shorter), the tail from `to + 1` onward is preserved
when the sequence reaches that far, and the stored result is
head, then the new elements, then the tail. -/
theorem set_splice (m : TagMap) (id : TagId) (sq s : List Value) (fro : Option Nat) (b : Nat)
    (hfind : mapFind m id = some (Value.seq sq))
    (hlt : fro.getD 0 < b)
    (hs : s.length = b - fro.getD 0 + 1) :
    TagMap.set m ⟨id, ⟨fro, some b⟩⟩ (Value.seq s)
      = (Except.ok (), mapInsert m id
          (Value.seq (resize sq (fro.getD 0) ++ s ++ sq.drop (b + 1)))) :=
  splice_eq m id sq s fro b hfind hlt hs

/-- Witness for C2: with stored sequence 1, 2, 3, 4, 5, setting `x[1-2]`
to the sequence 9, 9 yields 1, 9, 9, 4, 5. -/
theorem set_splice_witness :
    TagMap.set [(TagId.str [Char.ofNat 120],
        Value.seq [Value.int 1, Value.int 2, Value.int 3, Value.int 4, Value.int 5])]
      ⟨TagId.str [Char.ofNat 120], ⟨some 1, some 2⟩⟩
      (Value.seq [Value.int 9, Value.int 9])
    = (Except.ok (), [(TagId.str [Char.ofNat 120],
        Value.seq [Value.int 1, Value.int 9, Value.int 9, Value.int 4, Value.int 5])]) := by
  have h := set_splice [(TagId.str [Char.ofNat 120],
      Value.seq [Value.int 1, Value.int 2, Value.int 3, Value.int 4, Value.int 5])]
    (TagId.str [Char.ofNat 120])
    [Value.int 1, Value.int 2, Value.int 3, Value.int 4, Value.int 5]
    [Value.int 9, Value.int 9] (some 1) 2 rfl (by decide) rfl
  exact h

theorem resize_append_of_len (A B : List Value) (n : Nat) (h : A.length = n) :
    resize (A ++ B) n = A := by
  subst h
  rw [resize_eq_take_of_le _ _ (by simp), List.take_left]

theorem wf_le (r : Range) (b : Nat) (hwf : r.wf = true) (hb : r.toB = some b) :
    r.fromB.getD 0 ≤ b := by
  rcases hf : r.fromB with _ | f
  · simp
  · unfold Range.wf at hwf
    rw [hf, hb] at hwf
    simpa using hwf

theorem set_again_of_error (m : TagMap) (t : Tag) (v : Value) (e : Err)
    (h : TagMap.set m t v = (Except.error e, m)) :
    TagMap.set (TagMap.set m t v).2 t v = TagMap.set m t v := by
  rw [h]
  exact h

theorem set_single_existing (m : TagMap) (tid : TagId) (fro : Option Nat) (b : Nat)
    (sq : List Value) (v : Value)
    (hfind : mapFind m tid = some (Value.seq sq))
    (hlen : b - fro.getD 0 + 1 = 1) :
    TagMap.set m ⟨tid, ⟨fro, some b⟩⟩ v
      = (Except.ok (), mapInsert m tid (Value.seq
          ((if sq.length < fro.getD 0 + 1 then resize sq (fro.getD 0 + 1) else sq).set
            (fro.getD 0) v))) := by
  have hr : Tag.has_range ⟨tid, ⟨fro, some b⟩⟩ = true := by simp [Tag.has_range]
  have hl : Tag.range_len ⟨tid, ⟨fro, some b⟩⟩ = some 1 := by simp [Tag.range_len, hlen]
  simp [TagMap.set, hr, hfind, hl]

theorem set_open_existing (m : TagMap) (tid : TagId) (f : Nat) (sq s : List Value)
    (hfind : mapFind m tid = some (Value.seq sq)) :
    TagMap.set m ⟨tid, ⟨some f, none⟩⟩ (Value.seq s)
      = (Except.ok (), mapInsert m tid (Value.seq (resize sq f ++ s))) := by
  simp [TagMap.set, Tag.has_range, Tag.range_len, hfind]

set_option maxHeartbeats 1000000 in
/-- C5 (amended): repeating an identical `set` call twice yields the same
final map state and result as calling it once, for every well-formed tag
and value except the one corner the code breaks: no existing entry, a
single-index range, and a sequence value (there the first call stores the
sequence's sole element and the second overwrites it with the whole
sequence). -/
theorem set_idempotent (m : TagMap) (t : Tag) (v : Value)
    (hwf : t.range.wf = true)
    (hexc : ¬(mapFind m t.id = none ∧ t.range_len = some 1 ∧ ∃ s, v = Value.seq s)) :
    TagMap.set (TagMap.set m t v).2 t v = TagMap.set m t v := by
  obtain ⟨tid, fro, tob⟩ := t
  rcases tob with _ | b
  · -- no upper bound
    rcases fro with _ | f
    · -- no range at all: unconditional insert, idempotent
      have h1 : TagMap.set m ⟨tid, ⟨none, none⟩⟩ v = (Except.ok (), mapInsert m tid v) := by
        simp [TagMap.set, Tag.has_range]
      rw [h1]
      simp [TagMap.set, Tag.has_range, mapInsert_mapInsert]
    · -- open-ended range
      rcases hfind : mapFind m tid with _ | val
      · -- no entry
        cases v with
        | seq sq =>
          -- fresh insert of padding ++ sq, then the suffix-replace branch reproduces it
          have h1 : TagMap.set m ⟨tid, ⟨some f, none⟩⟩ (Value.seq sq)
              = (Except.ok (), mapInsert m tid
                  (Value.seq (List.replicate f Value.unit ++ sq))) := by
            simp [TagMap.set, Tag.has_range, Tag.range_len, hfind]
          rw [h1]
          have h2 := set_open_existing (mapInsert m tid (Value.seq (List.replicate f Value.unit ++ sq)))
            tid f (List.replicate f Value.unit ++ sq) sq
            (mapFind_mapInsert_self m tid (Value.seq (List.replicate f Value.unit ++ sq)))
          have hresz : resize (List.replicate f Value.unit ++ sq) f = List.replicate f Value.unit :=
            resize_append_of_len _ _ _ (by simp)
          simp [h2, hresz, mapInsert_mapInsert]
        | unit =>
          exact set_again_of_error _ _ _ (Err.invalidParams ErrMsg.valueIsNotSeq)
            (by simp [TagMap.set, Tag.has_range, Tag.range_len, hfind])
        | int i =>
          exact set_again_of_error _ _ _ (Err.invalidParams ErrMsg.valueIsNotSeq)
            (by simp [TagMap.set, Tag.has_range, Tag.range_len, hfind])
      · -- entry exists
        cases val with
        | seq sq =>
          cases v with
          | seq s =>
            have h1 := set_open_existing m tid f sq s hfind
            rw [h1]
            have h2 := set_open_existing (mapInsert m tid (Value.seq (resize sq f ++ s)))
              tid f (resize sq f ++ s) s
              (mapFind_mapInsert_self m tid (Value.seq (resize sq f ++ s)))
            have hresz : resize (resize sq f ++ s) f = resize sq f :=
              resize_append_of_len _ _ _ (resize_length sq f)
            simp [h2, hresz, mapInsert_mapInsert]
          | unit =>
            exact set_again_of_error _ _ _ (Err.invalidParams ErrMsg.valueIsNotSeq)
              (by simp [TagMap.set, Tag.has_range, Tag.range_len, hfind])
          | int i =>
            exact set_again_of_error _ _ _ (Err.invalidParams ErrMsg.valueIsNotSeq)
              (by simp [TagMap.set, Tag.has_range, Tag.range_len, hfind])
        | unit =>
          exact set_again_of_error _ _ _ (Err.invalidParams ErrMsg.tagIsNotAnArray)
            (by simp [TagMap.set, Tag.has_range, hfind])
        | int i =>
          exact set_again_of_error _ _ _ (Err.invalidParams ErrMsg.tagIsNotAnArray)
            (by simp [TagMap.set, Tag.has_range, hfind])
  · -- bounded range, length b - fro + 1
    by_cases h1 : b - fro.getD 0 + 1 = 1
    · -- single-index range
      rcases hfind : mapFind m tid with _ | val
      · -- no entry: scalar fresh insert (seq value is the excluded corner)
        cases v with
        | seq s =>
          exact absurd ⟨hfind, by simp [Tag.range_len, h1], ⟨s, rfl⟩⟩ hexc
        | unit =>
          have he1 : TagMap.set m ⟨tid, ⟨fro, some b⟩⟩ Value.unit
              = (Except.ok (), mapInsert m tid (Value.seq
                  ((List.replicate (fro.getD 0 + 1) Value.unit).set (fro.getD 0) Value.unit))) := by
            simp [TagMap.set, Tag.has_range, Tag.range_len, hfind, h1]
          rw [he1]
          have h2 := set_single_existing
            (mapInsert m tid (Value.seq ((List.replicate (fro.getD 0 + 1) Value.unit).set (fro.getD 0) Value.unit)))
            tid fro b ((List.replicate (fro.getD 0 + 1) Value.unit).set (fro.getD 0) Value.unit)
            Value.unit (mapFind_mapInsert_self _ _ _) h1
          have hpad : ¬(((List.replicate (fro.getD 0 + 1) Value.unit).set (fro.getD 0) Value.unit).length
              < fro.getD 0 + 1) := by simp
          rw [h2]
          simp [hpad, List.set_set, mapInsert_mapInsert]
        | int i =>
          have he1 : TagMap.set m ⟨tid, ⟨fro, some b⟩⟩ (Value.int i)
              = (Except.ok (), mapInsert m tid (Value.seq
                  ((List.replicate (fro.getD 0 + 1) Value.unit).set (fro.getD 0) (Value.int i)))) := by
            simp [TagMap.set, Tag.has_range, Tag.range_len, hfind, h1]
          rw [he1]
          have h2 := set_single_existing
            (mapInsert m tid (Value.seq ((List.replicate (fro.getD 0 + 1) Value.unit).set (fro.getD 0) (Value.int i))))
            tid fro b ((List.replicate (fro.getD 0 + 1) Value.unit).set (fro.getD 0) (Value.int i))
            (Value.int i) (mapFind_mapInsert_self _ _ _) h1
          have hpad : ¬(((List.replicate (fro.getD 0 + 1) Value.unit).set (fro.getD 0) (Value.int i)).length
              < fro.getD 0 + 1) := by simp
          rw [h2]
          simp [hpad, List.set_set, mapInsert_mapInsert]
      · -- entry exists
        cases val with
        | seq sq =>
          have he1 := set_single_existing m tid fro b sq v hfind h1
          rw [he1]
          have h2 := set_single_existing
            (mapInsert m tid (Value.seq
              ((if sq.length < fro.getD 0 + 1 then resize sq (fro.getD 0 + 1) else sq).set (fro.getD 0) v)))
            tid fro b
            ((if sq.length < fro.getD 0 + 1 then resize sq (fro.getD 0 + 1) else sq).set (fro.getD 0) v)
            v (mapFind_mapInsert_self _ _ _) h1
          have hpadlen : fro.getD 0 + 1
              ≤ (if sq.length < fro.getD 0 + 1 then resize sq (fro.getD 0 + 1) else sq).length := by
            split
            · rw [resize_length]
            · omega
          have hpad : ¬((if sq.length < fro.getD 0 + 1 then resize sq (fro.getD 0 + 1) else sq).length
              < fro.getD 0 + 1) := by omega
          rw [h2]
          simp [hpad, List.set_set, mapInsert_mapInsert]
        | unit =>
          exact set_again_of_error _ _ _ (Err.invalidParams ErrMsg.tagIsNotAnArray)
            (by simp [TagMap.set, Tag.has_range, hfind])
        | int i =>
          exact set_again_of_error _ _ _ (Err.invalidParams ErrMsg.tagIsNotAnArray)
            (by simp [TagMap.set, Tag.has_range, hfind])
    · -- multi-element range
      have hlt : fro.getD 0 < b := by omega
      rcases hfind : mapFind m tid with _ | val
      · -- no entry
        cases v with
        | seq sq =>
          by_cases hsl : b - fro.getD 0 + 1 = sq.length
          · -- fresh insert of padding ++ sq, then splice reproduces it
            have hl : Tag.range_len ⟨tid, ⟨fro, some b⟩⟩ = some (b - fro.getD 0 + 1) := by
              simp [Tag.range_len]
            have he1 : TagMap.set m ⟨tid, ⟨fro, some b⟩⟩ (Value.seq sq)
                = (Except.ok (), mapInsert m tid
                    (Value.seq (List.replicate (fro.getD 0) Value.unit ++ sq))) := by
              simp [TagMap.set, Tag.has_range, hl, hfind, hsl]
            rw [he1]
            have h2 := splice_eq
              (mapInsert m tid (Value.seq (List.replicate (fro.getD 0) Value.unit ++ sq)))
              tid (List.replicate (fro.getD 0) Value.unit ++ sq) sq fro b
              (mapFind_mapInsert_self _ _ _) hlt hsl.symm
            have hresz : resize (List.replicate (fro.getD 0) Value.unit ++ sq) (fro.getD 0)
                = List.replicate (fro.getD 0) Value.unit :=
              resize_append_of_len _ _ _ (by simp)
            have hdrop : (List.replicate (fro.getD 0) Value.unit ++ sq).drop (b + 1) = [] :=
              List.drop_eq_nil_of_le (by simp; omega)
            rw [h2]
            simp [hresz, hdrop, mapInsert_mapInsert]
          · -- length mismatch: error, nothing changes
            exact set_again_of_error _ _ _ (Err.invalidParams ErrMsg.invalidValueSeqLen)
              (by simp [TagMap.set, Tag.has_range, Tag.range_len, hfind, hsl])
        | unit =>
          exact set_again_of_error _ _ _ (Err.invalidParams ErrMsg.valueIsNotSeq)
            (by simp [TagMap.set, Tag.has_range, Tag.range_len, hfind, h1])
        | int i =>
          exact set_again_of_error _ _ _ (Err.invalidParams ErrMsg.valueIsNotSeq)
            (by simp [TagMap.set, Tag.has_range, Tag.range_len, hfind, h1])
      · -- entry exists
        cases val with
        | seq sq =>
          cases v with
          | seq s =>
            by_cases hsl : s.length = b - fro.getD 0 + 1
            · -- splice twice
              have he1 := splice_eq m tid sq s fro b hfind hlt hsl
              rw [he1]
              have h2 := splice_eq
                (mapInsert m tid (Value.seq (resize sq (fro.getD 0) ++ s ++ sq.drop (b + 1))))
                tid (resize sq (fro.getD 0) ++ s ++ sq.drop (b + 1)) s fro b
                (mapFind_mapInsert_self _ _ _) hlt hsl
              have hlen12 : (resize sq (fro.getD 0) ++ s).length = b + 1 := by
                rw [List.length_append, resize_length, hsl]
                omega
              have hresz : resize (resize sq (fro.getD 0) ++ (s ++ sq.drop (b + 1))) (fro.getD 0)
                  = resize sq (fro.getD 0) :=
                resize_append_of_len _ _ _ (resize_length sq (fro.getD 0))
              have hdrop : (resize sq (fro.getD 0) ++ (s ++ sq.drop (b + 1))).drop (b + 1)
                  = sq.drop (b + 1) := by
                rw [← List.append_assoc]
                exact List.drop_left' hlen12
              rw [h2]
              simp [hresz, hdrop, mapInsert_mapInsert]
            · exact set_again_of_error _ _ _ (Err.invalidParams ErrMsg.invalidValueSeqLen)
                (by simp [TagMap.set, Tag.has_range, Tag.range_len, hfind, h1, hsl])
          | unit =>
            exact set_again_of_error _ _ _ (Err.invalidParams ErrMsg.valueIsNotSeq)
              (by simp [TagMap.set, Tag.has_range, Tag.range_len, hfind, h1])
          | int i =>
            exact set_again_of_error _ _ _ (Err.invalidParams ErrMsg.valueIsNotSeq)
              (by simp [TagMap.set, Tag.has_range, Tag.range_len, hfind, h1])
        | unit =>
          exact set_again_of_error _ _ _ (Err.invalidParams ErrMsg.tagIsNotAnArray)
            (by simp [TagMap.set, Tag.has_range, hfind])
        | int i =>
          exact set_again_of_error _ _ _ (Err.invalidParams ErrMsg.tagIsNotAnArray)
            (by simp [TagMap.set, Tag.has_range, hfind])

/-- Witness for C5 (amended): a single-index set of a scalar into an
empty map, repeated, gives the same one-entry map. -/
theorem set_idempotent_witness :
    TagMap.set (TagMap.set [] ⟨TagId.str [Char.ofNat 120], ⟨some 2, some 2⟩⟩ (Value.int 5)).2
        ⟨TagId.str [Char.ofNat 120], ⟨some 2, some 2⟩⟩ (Value.int 5)
      = TagMap.set [] ⟨TagId.str [Char.ofNat 120], ⟨some 2, some 2⟩⟩ (Value.int 5) :=
  set_idempotent [] ⟨TagId.str [Char.ofNat 120], ⟨some 2, some 2⟩⟩ (Value.int 5) rfl
    (fun h => by
      obtain ⟨-, -, s, hs⟩ := h
      cases hs)

/-- Counterexample for C5 as stated: on an empty map, setting tag `x[0]`
to the one-element sequence holding 5 twice does not reproduce the state
after one call — the first call stores `x` as the sequence 5, the second
stores the sequence whose sole element is the sequence 5. -/
theorem set_idempotent_counterexample :
    TagMap.set (TagMap.set [] ⟨TagId.str [Char.ofNat 120], ⟨some 0, some 0⟩⟩
          (Value.seq [Value.int 5])).2
        ⟨TagId.str [Char.ofNat 120], ⟨some 0, some 0⟩⟩ (Value.seq [Value.int 5])
      ≠ TagMap.set [] ⟨TagId.str [Char.ofNat 120], ⟨some 0, some 0⟩⟩
          (Value.seq [Value.int 5]) := by
  intro h
  have e1 : TagMap.set (TagMap.set [] ⟨TagId.str [Char.ofNat 120], ⟨some 0, some 0⟩⟩
          (Value.seq [Value.int 5])).2
        ⟨TagId.str [Char.ofNat 120], ⟨some 0, some 0⟩⟩ (Value.seq [Value.int 5])
      = (Except.ok (), [(TagId.str [Char.ofNat 120],
          Value.seq [Value.seq [Value.int 5]])]) := rfl
  have e2 : TagMap.set [] ⟨TagId.str [Char.ofNat 120], ⟨some 0, some 0⟩⟩
        (Value.seq [Value.int 5])
      = (Except.ok (), [(TagId.str [Char.ofNat 120], Value.seq [Value.int 5])]) := rfl
  rw [e1, e2] at h
  simp at h

theorem charVal_digitChar (d : Nat) (h : d < 10) : charVal (digitChar d) = d := by
  interval_cases d <;> rfl

theorem isDigitChar_digitChar (d : Nat) (h : d < 10) : isDigitChar (digitChar d) = true := by
  interval_cases d <;> rfl

theorem digit_ne_dash (c : Char) (h : isDigitChar c = true) : c ≠ dashChar :=
  fun hc => absurd (hc ▸ h) (by decide)

theorem digit_ne_lbrack (c : Char) (h : isDigitChar c = true) : c ≠ lbrackChar :=
  fun hc => absurd (hc ▸ h) (by decide)

theorem digit_ne_plus (c : Char) (h : isDigitChar c = true) : c ≠ plusChar :=
  fun hc => absurd (hc ▸ h) (by decide)

theorem natToCharsAux_fuel (fuel fuel' n : Nat) (h : n < fuel) (h' : n < fuel') :
    natToCharsAux fuel n = natToCharsAux fuel' n := by
  induction fuel generalizing fuel' n with
  | zero => omega
  | succ f ih =>
    cases fuel' with
    | zero => omega
    | succ f' =>
      unfold natToCharsAux
      by_cases h10 : n < 10
      · simp [h10]
      · have hd : n / 10 < n := Nat.div_lt_self (by omega) (by omega)
        simp only [h10, if_false]
        rw [ih f' (n / 10) (by omega) (by omega)]

theorem natToChars_unfold (n : Nat) :
    natToChars n = if n < 10 then [digitChar n]
      else natToChars (n / 10) ++ [digitChar (n % 10)] := by
  by_cases h10 : n < 10
  · unfold natToChars natToCharsAux
    simp [h10]
  · have hd : n / 10 < n := Nat.div_lt_self (by omega) (by omega)
    have e2 : natToCharsAux (n + 1) n
        = natToCharsAux n (n / 10) ++ [digitChar (n % 10)] := by
      simp only [natToCharsAux]
      simp [h10]
    have e3 : natToChars n = natToCharsAux (n + 1) n := rfl
    rw [e3, e2, natToCharsAux_fuel n (n / 10 + 1) (n / 10) (by omega) (by omega)]
    simp [h10]
    rfl

theorem natToChars_all_digits (n : Nat) : ∀ c ∈ natToChars n, isDigitChar c = true := by
  induction n using Nat.strong_induction_on with
  | _ n ih =>
    rw [natToChars_unfold]
    by_cases h10 : n < 10
    · simp [h10]
      exact isDigitChar_digitChar n h10
    · have hd : n / 10 < n := Nat.div_lt_self (by omega) (by omega)
      simp [h10]
      intro c hc
      rcases hc with hc | hc
      · exact ih (n / 10) hd c hc
      · rw [hc]
        exact isDigitChar_digitChar _ (Nat.mod_lt n (by omega))

theorem natToChars_ne_nil (n : Nat) : natToChars n ≠ [] := by
  rw [natToChars_unfold]
  by_cases h10 : n < 10 <;> simp [h10]

theorem digitsVal_append_singleton (l : List Char) (c : Char) :
    digitsVal (l ++ [c]) = digitsVal l * 10 + charVal c := by
  unfold digitsVal
  rw [List.foldl_append]
  rfl

theorem digitsVal_natToChars (n : Nat) : digitsVal (natToChars n) = n := by
  induction n using Nat.strong_induction_on with
  | _ n ih =>
    rw [natToChars_unfold]
    by_cases h10 : n < 10
    · simp [h10, digitsVal, charVal_digitChar n h10]
    · have hd : n / 10 < n := Nat.div_lt_self (by omega) (by omega)
      simp only [h10, if_false]
      rw [digitsVal_append_singleton, ih (n / 10) hd,
        charVal_digitChar _ (Nat.mod_lt n (by omega))]
      omega

theorem parseUsizeCore_natToChars (n : Nat) (h : n < usizeBound) :
    parseUsizeCore (natToChars n) = some n := by
  unfold parseUsizeCore
  rw [if_neg (natToChars_ne_nil n)]
  rw [if_pos (List.all_eq_true.mpr (natToChars_all_digits n))]
  rw [digitsVal_natToChars]
  simp [h]

theorem parseUsize_natToChars (n : Nat) (h : n < usizeBound) :
    parseUsize (natToChars n) = some n := by
  rcases hc : natToChars n with _ | ⟨c, rest⟩
  · exact absurd hc (natToChars_ne_nil n)
  · have hcd : isDigitChar c = true := natToChars_all_digits n c (by rw [hc]; simp)
    have e1 : parseUsize (c :: rest) = parseUsizeCore (c :: rest) := by
      simp [parseUsize, digit_ne_plus c hcd]
    rw [e1, ← hc]
    exact parseUsizeCore_natToChars n h

theorem parseUsize_lt_bound (l : List Char) (n : Nat) (h : parseUsize l = some n) :
    n < usizeBound := by
  unfold parseUsize parseUsizeCore at h
  rcases l with _ | ⟨c, rest⟩
  · cases h
  · split at h <;> (repeat' split at h) <;> simp_all

theorem parseUsize_nil : parseUsize [] = none := rfl

theorem findChar_eq_none (B : List Char) (c : Char) (h : ∀ a ∈ B, a ≠ c) :
    findChar B c = none := by
  induction B with
  | nil => rfl
  | cons a rest ih =>
    simp [findChar, h a (by simp)]
    exact ih (fun b hb => h b (by simp [hb]))

theorem findChar_append_cons (A B : List Char) (c : Char) (hA : ∀ a ∈ A, a ≠ c) :
    findChar (A ++ c :: B) c = some A.length := by
  induction A with
  | nil => simp [findChar]
  | cons a rest ih =>
    have hne : a ≠ c := hA a (by simp)
    rw [List.cons_append]
    show (if a = c then some 0 else (findChar (rest ++ c :: B) c).map (· + 1))
      = some (a :: rest).length
    rw [if_neg hne, ih (fun b hb => hA b (by simp [hb]))]
    simp

theorem rfindChar_eq_none (B : List Char) (c : Char) (h : ∀ a ∈ B, a ≠ c) :
    rfindChar B c = none := by
  induction B with
  | nil => rfl
  | cons a rest ih =>
    simp only [rfindChar]
    rw [ih (fun b hb => h b (by simp [hb]))]
    simp [h a (by simp)]

theorem rfindChar_append_cons (A B : List Char) (c : Char) (hB : ∀ b ∈ B, b ≠ c) :
    rfindChar (A ++ c :: B) c = some A.length := by
  induction A with
  | nil =>
    simp only [List.nil_append, rfindChar]
    rw [rfindChar_eq_none B c hB]
    simp
  | cons a rest ih =>
    rw [List.cons_append]
    show (match rfindChar (rest ++ c :: B) c with
      | some i => some (i + 1)
      | none => if a = c then some 0 else none) = some (a :: rest).length
    rw [ih]
    simp

theorem stripSuffixChar_concat (l : List Char) (c : Char) :
    stripSuffixChar (l ++ [c]) c = some l := by
  simp [stripSuffixChar]

theorem drop_append_cons (A B : List Char) (c : Char) :
    (A ++ c :: B).drop (A.length + 1) = B := by
  rw [show A ++ c :: B = (A ++ [c]) ++ B by simp]
  exact List.drop_left' (by simp)

theorem findChar_spec (l : List Char) (c : Char) (pos : Nat)
    (h : findChar l c = some pos) :
    l.get? pos = some c ∧ ∀ j, j < pos → l.get? j ≠ some c := by
  induction l generalizing pos with
  | nil => cases h
  | cons a rest ih =>
    by_cases hac : a = c
    · simp [findChar, hac] at h
      subst h
      subst hac
      simp
    · simp only [findChar, hac, if_neg, if_false, Option.map_eq_some'] at h
      obtain ⟨p, hp, rfl⟩ := h
      obtain ⟨h1, h2⟩ := ih p hp
      refine ⟨by simpa using h1, ?_⟩
      intro j hj
      cases j with
      | zero => simpa using hac
      | succ k =>
        have := h2 k (by omega)
        simpa using this

theorem parse_range_single_num (n : Nat) (h : n < usizeBound) :
    parse_range (natToChars n) = Except.ok ⟨some n, some n⟩ := by
  have hnd : findChar (natToChars n) dashChar = none :=
    findChar_eq_none _ _ (fun a ha => digit_ne_dash a (natToChars_all_digits n a ha))
  unfold parse_range
  rw [hnd, parseUsize_natToChars n h]

theorem parse_range_ff_none (f : Nat) (hf : f < usizeBound) :
    parse_range (natToChars f ++ [dashChar]) = Except.ok ⟨some f, none⟩ := by
  have hfd : findChar (natToChars f ++ dashChar :: ([] : List Char)) dashChar
      = some (natToChars f).length :=
    findChar_append_cons _ _ _ (fun a ha => digit_ne_dash a (natToChars_all_digits f a ha))
  unfold parse_range
  rw [show (natToChars f ++ [dashChar] : List Char)
    = natToChars f ++ dashChar :: ([] : List Char) from rfl]
  rw [hfd]
  simp [List.take_left, drop_append_cons, natToChars_ne_nil f, parseUsize_natToChars f hf]

theorem parse_range_none_tt (bb : Nat) (hb : bb < usizeBound) :
    parse_range (dashChar :: natToChars bb) = Except.ok ⟨none, some bb⟩ := by
  have hfd : findChar (dashChar :: natToChars bb) dashChar = some 0 := by
    simp [findChar]
  unfold parse_range
  rw [hfd]
  simp [natToChars_ne_nil bb, parseUsize_natToChars bb hb]

theorem parse_range_ff_tt (f bb : Nat) (hf : f < usizeBound) (hb : bb < usizeBound)
    (hle : f ≤ bb) :
    parse_range (natToChars f ++ dashChar :: natToChars bb)
      = Except.ok ⟨some f, some bb⟩ := by
  have hfd : findChar (natToChars f ++ dashChar :: natToChars bb) dashChar
      = some (natToChars f).length :=
    findChar_append_cons _ _ _ (fun a ha => digit_ne_dash a (natToChars_all_digits f a ha))
  have hng : ¬(f > bb) := by omega
  unfold parse_range
  rw [hfd]
  simp [List.take_left, drop_append_cons, natToChars_ne_nil, parseUsize_natToChars f hf,
    parseUsize_natToChars bb hb, hng]

theorem parse_range_ok_inv (s : List Char) (r : Range) (h : parse_range s = Except.ok r) :
    (∀ f, r.fromB = some f → f < usizeBound)
    ∧ (∀ b, r.toB = some b → b < usizeBound)
    ∧ (∀ f b, r.fromB = some f → r.toB = some b → f ≤ b) := by
  obtain ⟨rf, rt⟩ := r
  unfold parse_range at h
  rcases hfd : findChar s dashChar with _ | pos
  · rw [hfd] at h
    rcases hp : parseUsize s with _ | n
    · simp [hp] at h
    · have hn := parseUsize_lt_bound s n hp
      simp [hp] at h
      obtain ⟨h1, h2⟩ := h
      subst h1
      subst h2
      refine ⟨fun f hf => ?_, fun b hb => ?_, fun f b hf hb => ?_⟩ <;> simp_all
  · rw [hfd] at h
    by_cases hfe : s.take pos = []
    · by_cases hte : s.drop (pos + 1) = []
      · simp [hfe, hte] at h
        obtain ⟨h1, h2⟩ := h
        subst h1
        subst h2
        refine ⟨fun f hf => ?_, fun b hb => ?_, fun f b hf hb => ?_⟩ <;> simp_all
      · rcases hpt : parseUsize (s.drop (pos + 1)) with _ | c
        · simp [hfe, hte, hpt] at h
        · have hc := parseUsize_lt_bound _ _ hpt
          simp [hfe, hte, hpt] at h
          obtain ⟨h1, h2⟩ := h
          subst h1
          subst h2
          refine ⟨fun f hf => ?_, fun b hb => ?_, fun f b hf hb => ?_⟩ <;> simp_all
    · rcases hpf : parseUsize (s.take pos) with _ | a
      · simp [hfe, hpf] at h
      · have ha := parseUsize_lt_bound _ _ hpf
        by_cases hte : s.drop (pos + 1) = []
        · simp [hfe, hpf, hte] at h
          obtain ⟨h1, h2⟩ := h
          subst h1
          subst h2
          refine ⟨fun f hf => ?_, fun b hb => ?_, fun f b hf hb => ?_⟩ <;> simp_all
        · rcases hpt : parseUsize (s.drop (pos + 1)) with _ | c
          · simp [hfe, hpf, hte, hpt] at h
          · have hc := parseUsize_lt_bound _ _ hpt
            by_cases hac : a > c
            · simp [hfe, hpf, hte, hpt, hac] at h
            · simp [hfe, hpf, hte, hpt, hac] at h
              obtain ⟨h1, h2⟩ := h
              subst h1
              subst h2
              refine ⟨fun f hf => ?_, fun b hb => ?_, fun f b hf hb => ?_⟩ <;> simp_all

theorem from_str_bracket (idchars interior : List Char)
    (hno : ∀ a ∈ interior, a ≠ lbrackChar) :
    Tag.from_str (idchars ++ lbrackChar :: (interior ++ [rbrackChar]))
      = match parse_range interior with
        | Except.ok r => Except.ok ⟨TagId.str idchars, r⟩
        | Except.error e => Except.error e := by
  have hstrip : stripSuffixChar (idchars ++ lbrackChar :: (interior ++ [rbrackChar])) rbrackChar
      = some (idchars ++ lbrackChar :: interior) := by
    rw [show idchars ++ lbrackChar :: (interior ++ [rbrackChar])
      = (idchars ++ lbrackChar :: interior) ++ [rbrackChar] by simp]
    exact stripSuffixChar_concat _ _
  have hrf : rfindChar (idchars ++ lbrackChar :: interior) lbrackChar = some idchars.length :=
    rfindChar_append_cons _ _ _ hno
  unfold Tag.from_str
  rw [hstrip]
  show (match rfindChar (idchars ++ lbrackChar :: interior) lbrackChar with
    | some pos =>
      match parse_range ((idchars ++ lbrackChar :: interior).drop (pos + 1)) with
      | Except.ok range =>
        Except.ok (Tag.mk (TagId.str ((idchars ++ lbrackChar :: interior).take pos)) range)
      | Except.error e => Except.error e
    | none => Except.error (Err.invalidParams ErrMsg.invalidArray)) = _
  rw [hrf]
  show (match parse_range ((idchars ++ lbrackChar :: interior).drop (idchars.length + 1)) with
    | Except.ok range =>
      Except.ok (Tag.mk (TagId.str ((idchars ++ lbrackChar :: interior).take idchars.length)) range)
    | Except.error e => Except.error e) = _
  rw [drop_append_cons, List.take_left]

theorem dash_ne_lbrack : dashChar ≠ lbrackChar := by decide

/-- C1 (amended): for every Tag produced by parsing, formatting and
re-parsing yields an equal Tag — same id and same range with the same
bound presence — except in two corners the code breaks: a parsed range
with `from` absent and `to` equal to zero (interior "-0") re-parses with
`from` present, and a parsed Tag with an empty range whose identifier
text itself ends in a closing bracket (possible only through the bracket
path, e.g. input "b[1][-]") re-parses as a different tag. -/
theorem from_str_display_roundtrip (s : List Char) (t : Tag)
    (hparse : Tag.from_str s = Except.ok t)
    (h0 : ¬(t.range.fromB = none ∧ t.range.toB = some 0))
    (hid : t.has_range = false → ∀ l, t.id = TagId.str l →
      stripSuffixChar l rbrackChar = none) :
    Tag.from_str (Tag.display t) = Except.ok t := by
  unfold Tag.from_str at hparse
  rcases hstrip : stripSuffixChar s rbrackChar with _ | x
  · rw [hstrip] at hparse
    simp at hparse
    subst hparse
    have hdisp : Tag.display ⟨TagId.str s, ⟨none, none⟩⟩ = s := by
      simp [Tag.display, TagId.display, Tag.has_range]
    rw [hdisp]
    unfold Tag.from_str
    rw [hstrip]
  · rw [hstrip] at hparse
    simp only [] at hparse
    rcases hrf : rfindChar x lbrackChar with _ | pos
    · rw [hrf] at hparse
      simp at hparse
    · rw [hrf] at hparse
      simp only [] at hparse
      rcases hpr : parse_range (x.drop (pos + 1)) with e | range
      · rw [hpr] at hparse
        simp at hparse
      · rw [hpr] at hparse
        simp at hparse
        obtain ⟨hfb, htb, hwfp⟩ := parse_range_ok_inv _ _ hpr
        subst hparse
        obtain ⟨fo, tb⟩ := range
        rcases tb with _ | bb
        · rcases fo with _ | f
          · -- empty range from the bracket path
            have hrf0 : Tag.has_range ⟨TagId.str (x.take pos), ⟨none, none⟩⟩ = false := rfl
            have hids := hid hrf0 (x.take pos) rfl
            have hdisp : Tag.display ⟨TagId.str (x.take pos), ⟨none, none⟩⟩ = x.take pos := by
              simp [Tag.display, TagId.display, Tag.has_range]
            rw [hdisp]
            unfold Tag.from_str
            rw [hids]
          · -- open-ended range
            have hf : f < usizeBound := hfb f rfl
            have hno : ∀ a ∈ natToChars f ++ [dashChar], a ≠ lbrackChar := by
              intro a ha
              simp at ha
              rcases ha with ha | ha
              · exact digit_ne_lbrack a (natToChars_all_digits f a ha)
              · subst ha
                exact dash_ne_lbrack
            have hdisp : Tag.display ⟨TagId.str (x.take pos), ⟨some f, none⟩⟩
                = x.take pos ++ lbrackChar :: ((natToChars f ++ [dashChar]) ++ [rbrackChar]) := by
              simp [Tag.display, TagId.display, Tag.has_range, Tag.range_len]
            rw [hdisp, from_str_bracket _ _ hno, parse_range_ff_none f hf]
        · by_cases hone : bb - fo.getD 0 + 1 = 1
          · -- display uses the single-index branch
            rcases fo with _ | f
            · exfalso
              simp at hone
              subst hone
              exact h0 ⟨rfl, rfl⟩
            · have hf : f < usizeBound := hfb f rfl
              have hfle : f ≤ bb := hwfp f bb rfl rfl
              have hbf : f = bb := by
                simp at hone
                omega
              subst hbf
              have hlen : Tag.range_len ⟨TagId.str (x.take pos), ⟨some f, some f⟩⟩
                  = some 1 := by
                simp [Tag.range_len]
              have hno : ∀ a ∈ natToChars f, a ≠ lbrackChar :=
                fun a ha => digit_ne_lbrack a (natToChars_all_digits f a ha)
              have hdisp : Tag.display ⟨TagId.str (x.take pos), ⟨some f, some f⟩⟩
                  = x.take pos ++ lbrackChar :: (natToChars f ++ [rbrackChar]) := by
                simp [Tag.display, TagId.display, Tag.has_range, hlen]
              rw [hdisp, from_str_bracket _ _ hno, parse_range_single_num f hf]
          · -- display uses the dash branch
            have hb : bb < usizeBound := htb bb rfl
            have hlen_ne : Tag.range_len ⟨TagId.str (x.take pos), ⟨fo, some bb⟩⟩
                ≠ some 1 := by
              simp [Tag.range_len]
              intro hcon
              exact hone (by omega)
            rcases fo with _ | f
            · have hno : ∀ a ∈ dashChar :: natToChars bb, a ≠ lbrackChar := by
                intro a ha
                simp at ha
                rcases ha with ha | ha
                · subst ha
                  exact dash_ne_lbrack
                · exact digit_ne_lbrack a (natToChars_all_digits bb a ha)
              have hdisp : Tag.display ⟨TagId.str (x.take pos), ⟨none, some bb⟩⟩
                  = x.take pos ++ lbrackChar :: ((dashChar :: natToChars bb) ++ [rbrackChar]) := by
                simp [Tag.display, TagId.display, Tag.has_range, hlen_ne]
              rw [hdisp, from_str_bracket _ _ hno, parse_range_none_tt bb hb]
            · have hf : f < usizeBound := hfb f rfl
              have hfle : f ≤ bb := hwfp f bb rfl rfl
              have hno : ∀ a ∈ natToChars f ++ dashChar :: natToChars bb, a ≠ lbrackChar := by
                intro a ha
                simp at ha
                rcases ha with ha | ha | ha
                · exact digit_ne_lbrack a (natToChars_all_digits f a ha)
                · subst ha
                  exact dash_ne_lbrack
                · exact digit_ne_lbrack a (natToChars_all_digits bb a ha)
              have hdisp : Tag.display ⟨TagId.str (x.take pos), ⟨some f, some bb⟩⟩
                  = x.take pos ++ lbrackChar ::
                      ((natToChars f ++ dashChar :: natToChars bb) ++ [rbrackChar]) := by
                simp [Tag.display, TagId.display, Tag.has_range, hlen_ne]
              rw [hdisp, from_str_bracket _ _ hno, parse_range_ff_tt f bb hf hb hfle]

/-- Counterexample for C1 as stated: parsing "a[-0]" yields a Tag whose
`from` bound is absent, but formatting prints "a[0]" which re-parses
with `from` present; and parsing "b[1][-]" yields the rangeless Tag with
identifier "b[1]", whose formatting re-parses as `b` with range 1..1. -/
theorem from_str_display_roundtrip_counterexample :
    (Tag.from_str [Char.ofNat 97, Char.ofNat 91, Char.ofNat 45, Char.ofNat 48, Char.ofNat 93]
      = Except.ok ⟨TagId.str [Char.ofNat 97], ⟨none, some 0⟩⟩)
    ∧ (Tag.from_str (Tag.display ⟨TagId.str [Char.ofNat 97], ⟨none, some 0⟩⟩)
      = Except.ok ⟨TagId.str [Char.ofNat 97], ⟨some 0, some 0⟩⟩)
    ∧ (⟨TagId.str [Char.ofNat 97], ⟨some 0, some 0⟩⟩ : Tag)
      ≠ ⟨TagId.str [Char.ofNat 97], ⟨none, some 0⟩⟩
    ∧ (Tag.from_str [Char.ofNat 98, Char.ofNat 91, Char.ofNat 49, Char.ofNat 93,
        Char.ofNat 91, Char.ofNat 45, Char.ofNat 93]
      = Except.ok ⟨TagId.str [Char.ofNat 98, Char.ofNat 91, Char.ofNat 49, Char.ofNat 93],
          ⟨none, none⟩⟩)
    ∧ (Tag.from_str (Tag.display ⟨TagId.str [Char.ofNat 98, Char.ofNat 91, Char.ofNat 49,
        Char.ofNat 93], ⟨none, none⟩⟩)
      = Except.ok ⟨TagId.str [Char.ofNat 98], ⟨some 1, some 1⟩⟩)
    ∧ (⟨TagId.str [Char.ofNat 98], ⟨some 1, some 1⟩⟩ : Tag)
      ≠ ⟨TagId.str [Char.ofNat 98, Char.ofNat 91, Char.ofNat 49, Char.ofNat 93],
          ⟨none, none⟩⟩ :=
  ⟨rfl, rfl, by decide, rfl, rfl, by decide⟩

/-- Witness for C1 (amended): the parsed form of "a[1-5]" formats and
re-parses to the same Tag. -/
theorem from_str_display_roundtrip_witness :
    Tag.from_str (Tag.display ⟨TagId.str [Char.ofNat 97], ⟨some 1, some 5⟩⟩)
      = Except.ok ⟨TagId.str [Char.ofNat 97], ⟨some 1, some 5⟩⟩ :=
  from_str_display_roundtrip
    [Char.ofNat 97, Char.ofNat 91, Char.ofNat 49, Char.ofNat 45, Char.ofNat 53, Char.ofNat 93]
    ⟨TagId.str [Char.ofNat 97], ⟨some 1, some 5⟩⟩ rfl (by simp)
    (fun h => absurd h (by decide))

/-- C8: when the bracket interior contains a dash, it is split at the
first occurrence; if both sides parse as non-negative integers with
`from` greater than `to`, parsing fails with `InvalidParams`, and a
non-empty side that does not parse as a non-negative integer also fails
with `InvalidParams`. -/
theorem parse_range_dash_errors (s : List Char) (pos : Nat)
    (hfind : findChar s dashChar = some pos) :
    (s.get? pos = some dashChar ∧ ∀ j, j < pos → s.get? j ≠ some dashChar)
    ∧ (∀ a c, parseUsize (s.take pos) = some a → parseUsize (s.drop (pos + 1)) = some c →
        a > c → parse_range s = Except.error (Err.invalidParams ErrMsg.invalidSeqIndex))
    ∧ ((s.take pos ≠ [] ∧ parseUsize (s.take pos) = none) ∨
        (s.drop (pos + 1) ≠ [] ∧ parseUsize (s.drop (pos + 1)) = none) →
        ∃ msg, parse_range s = Except.error (Err.invalidParams msg)) := by
  refine ⟨findChar_spec s dashChar pos hfind, ?_, ?_⟩
  · intro a c hpa hpc hac
    have hfe : s.take pos ≠ [] := fun h => by rw [h] at hpa; cases hpa
    have hte : s.drop (pos + 1) ≠ [] := fun h => by rw [h] at hpc; cases hpc
    unfold parse_range
    rw [hfind]
    simp [hfe, hte, hpa, hpc, hac]
  · intro hin
    unfold parse_range
    rw [hfind]
    rcases hin with ⟨hne, hpf⟩ | ⟨hne, hpf⟩
    · exact ⟨ErrMsg.parseIntError, by simp [hne, hpf]⟩
    · by_cases hfe : s.take pos = []
      · exact ⟨ErrMsg.parseIntError, by simp [hfe, hne, hpf]⟩
      · rcases hpl : parseUsize (s.take pos) with _ | a
        · exact ⟨ErrMsg.parseIntError, by simp [hfe, hpl]⟩
        · exact ⟨ErrMsg.parseIntError, by simp [hfe, hpl, hne, hpf]⟩

/-- Witness for C8: the interior "5-1" fails with `InvalidParams`, and so
does parsing the whole tag text "a[5-1]". -/
theorem parse_range_dash_errors_witness :
    parse_range [Char.ofNat 53, Char.ofNat 45, Char.ofNat 49]
      = Except.error (Err.invalidParams ErrMsg.invalidSeqIndex)
    ∧ Tag.from_str [Char.ofNat 97, Char.ofNat 91, Char.ofNat 53, Char.ofNat 45,
        Char.ofNat 49, Char.ofNat 93]
      = Except.error (Err.invalidParams ErrMsg.invalidSeqIndex) := by
  constructor
  · exact (parse_range_dash_errors [Char.ofNat 53, Char.ofNat 45, Char.ofNat 49] 1
      rfl).2.1 5 1 rfl rfl (by omega)
  · rfl
